import Mathlib

/-!
Verification of the directory-group synchronization core and the image REST
strategy of this repository.

The sync/prune/filter/mapping logic is specified in `spec.md` but its
implementation is not among the source files (only the end-to-end shell test
script exercising `oadm groups sync` / `oadm groups prune` is).  Those
components are therefore modelled from the spec, as marked on each
definition.  The image REST strategy (`pkg/image/registry/image/strategy.go`)
is embedded directly from the Go source.
-/

namespace GroupSync

/-- A group record as seen in the external directory (spec §3 DirectoryGroup):
unique identifier, display name, and a list of member identifiers. -/
structure DirectoryGroup where
  uid : String
  displayName : String
  members : List String
deriving DecidableEq, Repr

/-- The cluster-resident representation of a synchronized group (spec §3
LocalGroup): name, member identifiers, and the sync-source marker recording
the originating directory identifier. -/
structure LocalGroup where
  name : String
  users : List String
  syncSource : Option String
deriving DecidableEq, Repr

/-- The external directory, observed read-only as a list of group records. -/
abbrev Directory := List DirectoryGroup

/-- Modelled from the spec: the Directory Query Interface's
`LookupGroup(id)` (spec §6) — resolve an identifier to its directory record,
`none` standing for NotFound. -/
def Directory.lookup (dir : Directory) (uid : String) : Option DirectoryGroup :=
  dir.find? (fun g => g.uid == uid)

/-- Modelled from the spec: the Filter Specification (spec §3) — a whitelist
(empty meaning unrestricted) and a blacklist (empty meaning no exclusions) of
directory-group identifiers. -/
structure FilterSpec where
  whitelist : List String
  blacklist : List String
deriving DecidableEq, Repr

/-- Modelled from the spec: `Admits(id)` of the Filter Set (spec §4.1) —
true iff (whitelist is empty OR id ∈ whitelist) AND id ∉ blacklist. -/
def Admits (f : FilterSpec) (id : String) : Bool :=
  (f.whitelist.isEmpty || f.whitelist.contains id) && !(f.blacklist.contains id)

/-- Modelled from the spec: assembly of an effective whitelist or blacklist
from literal command arguments and line-delimited file entries (spec §4.1):
the union of the two sources with duplicates collapsed. -/
def effectiveFilterList (literals fileEntries : List String) : List String :=
  (literals ++ fileEntries).dedup

/-- Modelled from the spec: member resolution of `MapMembers` (spec §4.2)
over a member list — each directory member identifier is resolved to a local
user identifier; an unresolvable member is dropped and a warning is recorded
instead of failing the mapping. Returns (resolved users, warnings). -/
def mapMembersList (resolve : String → Option String) :
    List String → List String × List String
  | [] => ([], [])
  | m :: rest =>
    let r := mapMembersList resolve rest
    match resolve m with
    | some u => (u :: r.1, r.2)
    | none => (r.1, ("cannot resolve " ++ m) :: r.2)

/-- Modelled from the spec: `MapMembers(DirectoryGroup)` of the Attribute
Mapper (spec §4.2) — resolves each member, dropping unresolvable ones with a
recorded warning rather than a hard failure. -/
def mapMembers (resolve : String → Option String) (g : DirectoryGroup) :
    List String × List String :=
  mapMembersList resolve g.members

end GroupSync

namespace GroupSync

theorem mapMembersList_fst (resolve : String → Option String) (l : List String) :
    (mapMembersList resolve l).1 = l.filterMap resolve := by
  induction l with
  | nil => rfl
  | cons m rest ih =>
    simp only [mapMembersList, List.filterMap_cons]
    cases h : resolve m <;> simp [h, ih]

theorem mapMembersList_snd (resolve : String → Option String) (l : List String) :
    (mapMembersList resolve l).2 =
      (l.filter (fun m => (resolve m).isNone)).map (fun m => "cannot resolve " ++ m) := by
  induction l with
  | nil => rfl
  | cons m rest ih =>
    simp only [mapMembersList, List.filter_cons]
    cases h : resolve m <;> simp [h, ih]

/-- C1: `Admits(id)` is true iff (whitelist empty or id in whitelist) and id
not in blacklist; in particular an identifier in both lists is always
rejected — the blacklist wins regardless of how the sets were built. -/
theorem admits_whitelist_blacklist (f : FilterSpec) (id : String) :
    (Admits f id = true ↔
      ((f.whitelist = [] ∨ id ∈ f.whitelist) ∧ id ∉ f.blacklist)) ∧
    (id ∈ f.whitelist → id ∈ f.blacklist → Admits f id = false) := by
  constructor
  · simp [Admits, List.isEmpty_iff]
  · intro _ hb
    simp [Admits, hb]

/-- Witness for C1 at a concrete filter: "g1" sits in both lists and is
rejected, and the iff holds there. -/
theorem admits_whitelist_blacklist_witness :
    (Admits ⟨["g1"], ["g1"]⟩ "g1" = true ↔
      (((["g1"] : List String) = [] ∨ "g1" ∈ (["g1"] : List String)) ∧
        "g1" ∉ (["g1"] : List String))) ∧
    Admits ⟨["g1"], ["g1"]⟩ "g1" = false := by
  have h := admits_whitelist_blacklist ⟨["g1"], ["g1"]⟩ "g1"
  exact ⟨h.1, h.2 (by decide) (by decide)⟩

/-- C7: the effective whitelist (or blacklist) built from literal arguments
and a file source is exactly their set union: membership is the disjunction,
duplicates are collapsed (the result has no duplicates), and as a finite set
it is the union of the two sources. -/
theorem effective_list_is_union (lits fileEntries : List String) :
    (∀ id, id ∈ effectiveFilterList lits fileEntries ↔ id ∈ lits ∨ id ∈ fileEntries) ∧
    (effectiveFilterList lits fileEntries).Nodup ∧
    (effectiveFilterList lits fileEntries).toFinset = lits.toFinset ∪ fileEntries.toFinset := by
  refine ⟨?_, ?_, ?_⟩
  · intro id
    simp [effectiveFilterList, List.mem_dedup]
  · exact List.nodup_dedup _
  · ext id
    simp [effectiveFilterList, List.mem_dedup]

/-- C8: `MapMembers` is a total function (it can signal no hard error): it
returns exactly the resolvable subset of the group's members — every returned
user is the resolution of some member, unresolvable members are dropped, and
each dropped member is recorded as a warning. -/
theorem mapMembers_resolvable_subset (resolve : String → Option String)
    (g : DirectoryGroup) :
    (mapMembers resolve g).1 = g.members.filterMap resolve ∧
    (∀ u ∈ (mapMembers resolve g).1, ∃ m ∈ g.members, resolve m = some u) ∧
    (mapMembers resolve g).2 =
      (g.members.filter (fun m => (resolve m).isNone)).map
        (fun m => "cannot resolve " ++ m) := by
  refine ⟨mapMembersList_fst resolve g.members, ?_, mapMembersList_snd resolve g.members⟩
  intro u hu
  rw [mapMembers, mapMembersList_fst] at hu
  rcases List.mem_filterMap.mp hu with ⟨m, hm, hr⟩
  exact ⟨m, hm, hr⟩

end GroupSync

namespace ImageRegistry

/-- Docker image metadata as carried on an Image; the concrete fields are
opaque to the strategy, a stand-in payload suffices. -/
structure DockerImage where
  id : String
  size : Int
deriving DecidableEq, Repr

/-- The Image API object, restricted to the fields the strategy reads or
writes (`pkg/image/registry/image/strategy.go`): the five docker metadata
fields handled by `PrepareForUpdate`, plus representative user-settable
fields (name, labels, and an opaque remainder). -/
structure Image where
  name : String
  labels : List (String × String)
  otherFields : String
  dockerImageReference : String
  dockerImageMetadata : DockerImage
  dockerImageMetadataVersion : String
  dockerImageManifest : String
  dockerImageLayers : List String
deriving DecidableEq, Repr

/-- Modelled from the spec: `api.ImageWithMetadata` is called by the strategy
but its source is not in the repository view; per the strategy's doc comments
it "extracts the latest info from the manifest (if available) and sets that
on the object", errors being ignored in place.  It is modelled parametrically
over the manifest parser: an empty or unparsable manifest leaves the image
unchanged, otherwise the derived metadata and its version are set. -/
def imageWithMetadata (parse : String → Option DockerImage) (img : Image) : Image :=
  if img.dockerImageManifest = "" then img
  else
    match parse img.dockerImageManifest with
    | some meta =>
      { img with dockerImageMetadata := meta, dockerImageMetadataVersion := "1.0" }
    | none => img

/-- `imageStrategy.PrepareForUpdate` (strategy.go:64-78): the five immutable
docker metadata fields of the incoming object are overwritten with the old
object's values, then `ImageWithMetadata` re-derives metadata from the (now
old) manifest. -/
def prepareForUpdate (parse : String → Option DockerImage) (obj old : Image) : Image :=
  imageWithMetadata parse
    { obj with
      dockerImageReference := old.dockerImageReference
      dockerImageMetadata := old.dockerImageMetadata
      dockerImageManifest := old.dockerImageManifest
      dockerImageMetadataVersion := old.dockerImageMetadataVersion
      dockerImageLayers := old.dockerImageLayers }

/-- A runtime object handed to the matcher: either an Image or some other
API object (stand-in constructor). -/
inductive RuntimeObject where
  | image : Image → RuntimeObject
  | other : String → RuntimeObject
deriving DecidableEq, Repr

/-- `api.ImageToSelectableFields` is external to the repository view; the
matcher is embedded parametrically over it as `toFields`. Label and field
selectors are likewise opaque predicates on label/field sets.
`MatchImage` (strategy.go:86-95) returns (matched?, error). -/
def matchImage (label : List (String × String) → Bool)
    (fieldSel : List (String × String) → Bool)
    (toFields : Image → List (String × String)) (obj : RuntimeObject) :
    Bool × Option String :=
  match obj with
  | .image img => (label img.labels && fieldSel (toFields img), none)
  | .other _ => (false, some "not an image")

end ImageRegistry

namespace ImageRegistry

/-- C9: `PrepareForUpdate` makes the five docker metadata fields depend only
on the old image — the reference, manifest and layers are literally the old
values, and all five agree for any two supplied objects — while fields other
than these (name, labels, the opaque remainder) are left as supplied. -/
theorem prepareForUpdate_immutable_metadata (parse : String → Option DockerImage)
    (obj obj' old : Image) :
    (prepareForUpdate parse obj old).dockerImageReference = old.dockerImageReference ∧
    (prepareForUpdate parse obj old).dockerImageManifest = old.dockerImageManifest ∧
    (prepareForUpdate parse obj old).dockerImageLayers = old.dockerImageLayers ∧
    (prepareForUpdate parse obj old).dockerImageMetadata =
      (prepareForUpdate parse obj' old).dockerImageMetadata ∧
    (prepareForUpdate parse obj old).dockerImageMetadataVersion =
      (prepareForUpdate parse obj' old).dockerImageMetadataVersion ∧
    (prepareForUpdate parse obj old).name = obj.name ∧
    (prepareForUpdate parse obj old).labels = obj.labels ∧
    (prepareForUpdate parse obj old).otherFields = obj.otherFields := by
  unfold prepareForUpdate imageWithMetadata
  by_cases h : old.dockerImageManifest = ""
  · simp [h]
  · cases hp : parse old.dockerImageManifest <;> simp [h, hp]

/-- C10: the matcher returned by `MatchImage` signals (false, "not an image")
on any non-image object, and on an image returns no error and matches iff the
label selector accepts the image's labels and the field selector accepts its
selectable fields. -/
theorem matchImage_spec (label fieldSel : List (String × String) → Bool)
    (toFields : Image → List (String × String)) :
    (∀ s, matchImage label fieldSel toFields (.other s) = (false, some "not an image")) ∧
    (∀ img, (matchImage label fieldSel toFields (.image img)).2 = none ∧
      ((matchImage label fieldSel toFields (.image img)).1 = true ↔
        label img.labels = true ∧ fieldSel (toFields img) = true)) := by
  refine ⟨fun s => rfl, fun img => ⟨rfl, ?_⟩⟩
  simp [matchImage]

end ImageRegistry

namespace GroupSync

/-- Error kinds of the sync/prune core (spec §7). -/
inductive ErrKind where
  | GroupNotFound
  | AttributeMissing
  | StoreWriteFailed
  | DirectoryUnreachable
deriving DecidableEq, Repr

/-- The per-group outcome accumulated by the Sync Engine (spec §4.3 step 6). -/
inductive Outcome where
  | created
  | updated
  | failed (kind : ErrKind)
deriving DecidableEq, Repr

/-- Modelled from the spec: SyncConfig (spec §3) restricted to what the core
consumes — the filter specification and the attribute-mapping functions
(name mapping and member resolution, both opaque to the engine). -/
structure SyncConfig where
  filter : FilterSpec
  mapName : DirectoryGroup → String
  resolveMember : String → Option String

/-- The LocalGroup the Attribute Mapper produces for an admitted directory
group: mapped name, exactly the resolvable members, and the sync-source
marker set to the originating identifier (spec §3, §4.2). -/
def mappedGroup (cfg : SyncConfig) (uid : String) (dg : DirectoryGroup) : LocalGroup :=
  { name := cfg.mapName dg
    users := (mapMembers cfg.resolveMember dg).1
    syncSource := some uid }

/-- Look up the LocalGroup carrying the given sync-source marker in the
store — the sole link used for upsert and prune (spec §3 invariant). -/
def findBySyncSource (store : List LocalGroup) (uid : String) : Option LocalGroup :=
  store.find? (fun g => g.syncSource == some uid)

/-- Modelled from the spec: one step of the Sync Engine (spec §4.3 steps 3-6)
for a single admitted identifier — query the directory (missing record is a
per-group error), map, and upsert: create when no LocalGroup carries the
sync-source marker, otherwise fully replace its name and member set.  When
not confirmed (dry run) the store is never mutated and no write is attempted;
a failing store write is the per-group error StoreWriteFailed. -/
def processUid (cfg : SyncConfig) (dir : Directory) (writeOk : String → Bool)
    (confirm : Bool) (store : List LocalGroup) (uid : String) :
    List LocalGroup × Outcome :=
  match Directory.lookup dir uid with
  | none => (store, .failed .GroupNotFound)
  | some dg =>
    let lg := mappedGroup cfg uid dg
    if writeOk lg.name || !confirm then
      match findBySyncSource store uid with
      | none => ((if confirm then store ++ [lg] else store), .created)
      | some _ =>
        ((if confirm then
            store.map (fun g => if g.syncSource == some uid then lg else g)
          else store), .updated)
    else (store, .failed .StoreWriteFailed)

/-- Modelled from the spec: the Sync Engine's sequential pass over the
admitted identifiers (spec §4.3, §5) — per-group outcomes are accumulated
and a failure never aborts the processing of the remaining groups. -/
def syncFold (cfg : SyncConfig) (dir : Directory) (writeOk : String → Bool)
    (confirm : Bool) (store : List LocalGroup) :
    List String → List LocalGroup × List (String × Outcome)
  | [] => (store, [])
  | uid :: rest =>
    let p := processUid cfg dir writeOk confirm store uid
    let r := syncFold cfg dir writeOk confirm p.1 rest
    (r.1, (uid, p.2) :: r.2)

/-- The structured outcome of a run (spec §7): created, updated and errored
group identifiers. -/
structure SyncResult where
  created : List String
  updated : List String
  errors : List (String × ErrKind)
deriving DecidableEq, Repr

/-- Assemble the SyncResult from the per-group outcome list. -/
def resultOfOutcomes (os : List (String × Outcome)) : SyncResult :=
  { created := (os.filter (fun p => p.2 == Outcome.created)).map (fun p => p.1)
    updated := (os.filter (fun p => p.2 == Outcome.updated)).map (fun p => p.1)
    errors := os.filterMap (fun p =>
      match p.2 with
      | .failed k => some (p.1, k)
      | _ => none) }

/-- A whole run: final store, structured result, and whether the run as a
whole succeeded (exit code 0, spec §6). -/
structure SyncOutcome where
  store : List LocalGroup
  result : SyncResult
  exitOk : Bool
deriving Repr

/-- Modelled from the spec: steps 1-2 of the Sync Engine (spec §4.3) — the
candidate set resolved by the scope, filtered by `Admits`, with set
semantics (duplicates collapsed, spec §4.1). -/
def admittedIds (f : FilterSpec) (candidates : List String) : List String :=
  (candidates.filter (fun id => Admits f id)).dedup

/-- Modelled from the spec: `Sync(config, scope)` (spec §4.3, §6, §7) — on an
unreachable directory the run aborts before any mutation with a fatal error;
otherwise every admitted identifier is processed, and the run fails only if
every group failed (an empty admitted set is a success). -/
def syncRun (cfg : SyncConfig) (dirReachable : Bool) (dir : Directory)
    (writeOk : String → Bool) (confirm : Bool) (candidates : List String)
    (store : List LocalGroup) : SyncOutcome :=
  if dirReachable then
    let admitted := admittedIds cfg.filter candidates
    let r := syncFold cfg dir writeOk confirm store admitted
    let res := resultOfOutcomes r.2
    { store := r.1
      result := res
      exitOk := admitted.isEmpty || decide (res.errors.length < admitted.length) }
  else
    { store := store
      result := { created := [], updated := [],
                  errors := [("", ErrKind.DirectoryUnreachable)] }
      exitOk := false }

/-- Is this LocalGroup an orphan: it carries a sync-source marker that no
longer resolves in the directory (spec §4.4)? -/
def staleGroup (dir : Directory) (g : LocalGroup) : Bool :=
  match g.syncSource with
  | some uid => (Directory.lookup dir uid).isNone
  | none => false

/-- Modelled from the spec: `Prune(config, scope)` (spec §4.4) — delete
exactly the LocalGroups whose sync-source no longer resolves; groups whose
identifier still resolves are left untouched even if the filter `f` currently
excludes them (pruning is scoped to existence, not filter membership).
Without confirmation the deletions are only reported, never performed. -/
def pruneRun (dir : Directory) (f : FilterSpec) (confirm : Bool)
    (store : List LocalGroup) : List LocalGroup × List String :=
  ((if confirm then store.filter (fun g => !(staleGroup dir g)) else store),
   (store.filter (fun g => staleGroup dir g)).map (fun g => g.name))

end GroupSync

namespace GroupSync

/-- C2: a LocalGroup whose sync-source still resolves to an existing
directory group is never deleted by Prune — not even when the active filter
(whitelist/blacklist) excludes that identifier, since the filter `f` plays no
part in the deletion decision. -/
theorem prune_never_deletes_resolving (dir : Directory) (f : FilterSpec)
    (confirm : Bool) (store : List LocalGroup) (g : LocalGroup) (uid : String)
    (dg : DirectoryGroup) (hg : g ∈ store) (hsrc : g.syncSource = some uid)
    (hres : Directory.lookup dir uid = some dg) :
    g ∈ (pruneRun dir f confirm store).1 := by
  cases confirm with
  | false => simpa [pruneRun] using hg
  | true =>
    have hrw : (pruneRun dir f true store).1 =
        store.filter (fun g => !(staleGroup dir g)) := rfl
    rw [hrw]
    exact List.mem_filter.mpr ⟨hg, by simp [staleGroup, hsrc, hres]⟩

/-- Witness for C2: the directory still holds "g1", the blacklist excludes
"g1", yet prune keeps the LocalGroup synced from it. -/
theorem prune_never_deletes_resolving_witness :
    Admits ⟨[], ["g1"]⟩ "g1" = false ∧
    (⟨"G1", ["alice"], some "g1"⟩ : LocalGroup) ∈
      (pruneRun [⟨"g1", "G1", ["alice"]⟩] ⟨[], ["g1"]⟩ true
        [⟨"G1", ["alice"], some "g1"⟩]).1 :=
  ⟨by decide,
   prune_never_deletes_resolving [⟨"g1", "G1", ["alice"]⟩] ⟨[], ["g1"]⟩ true
     [⟨"G1", ["alice"], some "g1"⟩] ⟨"G1", ["alice"], some "g1"⟩ "g1"
     ⟨"g1", "G1", ["alice"]⟩ (by decide) rfl (by decide)⟩

/-- `find?` is unchanged by mapping with a function that preserves the
predicate and fixes every element satisfying it. -/
theorem find?_map_stable {α : Type} (p : α → Bool) (f : α → α)
    (hp : ∀ a, p (f a) = p a) (hf : ∀ a, p a = true → f a = a) :
    ∀ l : List α, (l.map f).find? p = l.find? p
  | [] => rfl
  | a :: l => by
    cases h : p a with
    | true =>
      rw [List.map_cons, List.find?_cons_of_pos _ ((hp a).trans h),
        List.find?_cons_of_pos _ h, hf a h]
    | false =>
      rw [List.map_cons, List.find?_cons_of_neg _ (by simp [hp a, h]),
        List.find?_cons_of_neg _ (by simp [h]), find?_map_stable p f hp hf l]

/-- `find?` ignores an appended suffix in which nothing matches. -/
theorem find?_append_none {α : Type} (p : α → Bool) (l₂ : List α)
    (h : l₂.find? p = none) :
    ∀ l₁ : List α, (l₁ ++ l₂).find? p = l₁.find? p
  | [] => by simpa using h
  | a :: l₁ => by
    cases ha : p a with
    | true =>
      rw [List.cons_append, List.find?_cons_of_pos _ ha, List.find?_cons_of_pos _ ha]
    | false =>
      rw [List.cons_append, List.find?_cons_of_neg _ (by simp [ha]),
        List.find?_cons_of_neg _ (by simp [ha]), find?_append_none p l₂ h l₁]

/-- A dry-run step never touches the store. -/
theorem processUid_store_dry (cfg : SyncConfig) (dir : Directory)
    (writeOk : String → Bool) (store : List LocalGroup) (uid : String) :
    (processUid cfg dir writeOk false store uid).1 = store := by
  unfold processUid
  cases Directory.lookup dir uid with
  | none => rfl
  | some dg =>
    simp only [Bool.not_false, Bool.or_true, if_true]
    cases findBySyncSource store uid <;> simp

/-- A dry-run step never reports a failed store write. -/
theorem processUid_dry_no_write_error (cfg : SyncConfig) (dir : Directory)
    (writeOk : String → Bool) (store : List LocalGroup) (uid : String) :
    (processUid cfg dir writeOk false store uid).2 ≠ .failed .StoreWriteFailed := by
  unfold processUid
  cases Directory.lookup dir uid with
  | none => simp
  | some dg =>
    simp only [Bool.not_false, Bool.or_true, if_true]
    cases findBySyncSource store uid <;> simp

/-- Processing one identifier leaves the sync-source lookup of every other
identifier unchanged, whatever the store mutation was. -/
theorem findBySyncSource_processUid (cfg : SyncConfig) (dir : Directory)
    (writeOk : String → Bool) (confirm : Bool) (store : List LocalGroup)
    (uid' uid : String) (hne : uid' ≠ uid) :
    findBySyncSource (processUid cfg dir writeOk confirm store uid').1 uid =
      findBySyncSource store uid := by
  unfold processUid
  cases hlk : Directory.lookup dir uid' with
  | none => rfl
  | some dg =>
    simp only []
    by_cases hw : (writeOk (mappedGroup cfg uid' dg).name || !confirm) = true
    · rw [if_pos hw]
      cases hf : findBySyncSource store uid' with
      | none =>
        simp only []
        cases confirm with
        | false => simp
        | true =>
          simp only [if_true]
          refine find?_append_none _ _ ?_ store
          rw [List.find?_eq_none]
          intro x hx
          have hx' : x = mappedGroup cfg uid' dg := by simpa using hx
          simp [hx', mappedGroup, hne]
      | some g₀ =>
        simp only []
        cases confirm with
        | false => simp
        | true =>
          simp only [if_true]
          refine find?_map_stable _ _ ?_ ?_ store
          · intro a
            by_cases ha : (a.syncSource == some uid') = true
            · have : a.syncSource = some uid' := by simpa using ha
              simp [ha, this, mappedGroup, hne, Ne.symm hne]
            · simp [ha]
          · intro a ha
            have : a.syncSource = some uid := by simpa using ha
            simp [this, hne, Ne.symm hne]
    · rw [if_neg hw]

end GroupSync

namespace GroupSync

/-- The outcome one sync step yields for an identifier, read off the
directory and the store it is classified against: a missing record is a
per-group GroupNotFound, otherwise create when no LocalGroup carries the
sync-source marker and update when one does. -/
def classify (dir : Directory) (store : List LocalGroup) (uid : String) : Outcome :=
  match Directory.lookup dir uid with
  | none => .failed .GroupNotFound
  | some _ =>
    match findBySyncSource store uid with
    | none => .created
    | some _ => .updated

/-- When every store write succeeds, a sync step's outcome is exactly the
classification against the store it ran on, for confirmed and dry runs
alike. -/
theorem processUid_outcome (cfg : SyncConfig) (dir : Directory)
    (writeOk : String → Bool) (confirm : Bool) (store : List LocalGroup)
    (uid : String) (hW : ∀ n, writeOk n = true) :
    (processUid cfg dir writeOk confirm store uid).2 = classify dir store uid := by
  unfold processUid classify
  cases Directory.lookup dir uid with
  | none => rfl
  | some dg =>
    simp only [hW, Bool.true_or, if_true]
    cases findBySyncSource store uid <;> simp

/-- With all store writes succeeding, the per-group outcome list of a pass
over distinct identifiers is the classification of each identifier against
the initial store — later steps never disturb an unprocessed identifier's
classification. -/
theorem syncFold_outcomes (cfg : SyncConfig) (dir : Directory)
    (writeOk : String → Bool) (confirm : Bool) (hW : ∀ n, writeOk n = true) :
    ∀ (l : List String) (store : List LocalGroup), l.Nodup →
      (syncFold cfg dir writeOk confirm store l).2 =
        l.map (fun uid => (uid, classify dir store uid))
  | [], _, _ => rfl
  | uid :: rest, store, hnd => by
    have hnd' := List.nodup_cons.mp hnd
    simp only [syncFold, List.map_cons]
    refine congrArg₂ _ ?_ ?_
    · rw [processUid_outcome cfg dir writeOk confirm store uid hW]
    · rw [syncFold_outcomes cfg dir writeOk confirm hW rest _ hnd'.2]
      refine List.map_congr_left ?_
      intro u hu
      have hne : uid ≠ u := fun h => hnd'.1 (h ▸ hu)
      have hfind := findBySyncSource_processUid cfg dir writeOk confirm store uid u hne
      simp only [classify, hfind]

/-- A dry run's pass leaves the store untouched. -/
theorem syncFold_store_dry (cfg : SyncConfig) (dir : Directory)
    (writeOk : String → Bool) :
    ∀ (l : List String) (store : List LocalGroup),
      (syncFold cfg dir writeOk false store l).1 = store
  | [], _ => rfl
  | uid :: rest, store => by
    simp only [syncFold]
    rw [processUid_store_dry cfg dir writeOk store uid,
      syncFold_store_dry cfg dir writeOk rest store]

/-- No outcome of a dry run's pass is a failed store write. -/
theorem syncFold_dry_no_write_error (cfg : SyncConfig) (dir : Directory)
    (writeOk : String → Bool) :
    ∀ (l : List String) (store : List LocalGroup),
      ∀ p ∈ (syncFold cfg dir writeOk false store l).2,
        p.2 ≠ Outcome.failed .StoreWriteFailed
  | [], _, p, hp => by simp [syncFold] at hp
  | uid :: rest, store, p, hp => by
    simp only [syncFold, List.mem_cons] at hp
    cases hp with
    | inl h =>
      subst h
      exact processUid_dry_no_write_error cfg dir writeOk store uid
    | inr h => exact syncFold_dry_no_write_error cfg dir writeOk rest _ p h

end GroupSync

namespace GroupSync

/-- Invariant after a confirmed upsert of `uid`: every LocalGroup carrying
the sync-source marker `uid` is exactly the mapped group, and at least one
such LocalGroup exists (spec §3 LocalGroup invariant). -/
def synced (cfg : SyncConfig) (uid : String) (dg : DirectoryGroup)
    (store : List LocalGroup) : Prop :=
  (∀ g ∈ store, g.syncSource = some uid → g = mappedGroup cfg uid dg) ∧
  (∃ g ∈ store, g.syncSource = some uid)

/-- A confirmed step on `uid` itself establishes the invariant, whether it
created or fully replaced. -/
theorem processUid_establishes (cfg : SyncConfig) (dir : Directory)
    (writeOk : String → Bool) (store : List LocalGroup) (uid : String)
    (dg : DirectoryGroup) (hW : ∀ n, writeOk n = true)
    (hlk : Directory.lookup dir uid = some dg) :
    synced cfg uid dg (processUid cfg dir writeOk true store uid).1 := by
  unfold processUid
  rw [hlk]
  simp only [hW, Bool.true_or, if_true]
  cases hf : findBySyncSource store uid with
  | none =>
    have hnone := List.find?_eq_none.mp hf
    constructor
    · intro g hg hsrc
      rcases List.mem_append.mp hg with hmem | hmem
      · exact absurd (by simp [hsrc]) (hnone g hmem)
      · simpa using hmem
    · exact ⟨mappedGroup cfg uid dg, List.mem_append_right _ (by simp),
        by simp [mappedGroup]⟩
  | some g₀ =>
    have hf' : store.find? (fun g => g.syncSource == some uid) = some g₀ := hf
    constructor
    · intro g hg hsrc
      rcases List.mem_map.mp hg with ⟨a, _, ha⟩
      by_cases hcase : (a.syncSource == some uid) = true
      · rw [if_pos hcase] at ha
        exact ha.symm
      · rw [if_neg (by simpa using hcase)] at ha
        exact absurd (ha ▸ hsrc) (by simpa using hcase)
    · refine ⟨mappedGroup cfg uid dg, ?_, by simp [mappedGroup]⟩
      have hmem := List.mem_of_find?_eq_some hf'
      have hp := List.find?_some hf'
      exact List.mem_map.mpr ⟨g₀, hmem, by rw [if_pos hp]⟩

/-- A step on a different identifier preserves the invariant. -/
theorem processUid_preserves (cfg : SyncConfig) (dir : Directory)
    (writeOk : String → Bool) (confirm : Bool) (store : List LocalGroup)
    (uid' uid : String) (dg : DirectoryGroup) (hne : uid' ≠ uid)
    (h : synced cfg uid dg store) :
    synced cfg uid dg (processUid cfg dir writeOk confirm store uid').1 := by
  unfold processUid
  cases hlk : Directory.lookup dir uid' with
  | none => exact h
  | some dg' =>
    simp only []
    by_cases hw : (writeOk (mappedGroup cfg uid' dg').name || !confirm) = true
    · rw [if_pos hw]
      cases hf : findBySyncSource store uid' with
      | none =>
        simp only []
        cases confirm with
        | false => exact h
        | true =>
          simp only [if_true]
          constructor
          · intro g hg hsrc
            rcases List.mem_append.mp hg with hmem | hmem
            · exact h.1 g hmem hsrc
            · have : g = mappedGroup cfg uid' dg' := by simpa using hmem
              rw [this] at hsrc
              exact absurd (by simpa [mappedGroup] using hsrc) hne
          · rcases h.2 with ⟨g, hg, hsrc⟩
            exact ⟨g, List.mem_append_left _ hg, hsrc⟩
      | some g₀ =>
        simp only []
        cases confirm with
        | false => exact h
        | true =>
          simp only [if_true]
          constructor
          · intro g hg hsrc
            rcases List.mem_map.mp hg with ⟨a, hamem, ha⟩
            by_cases hcase : (a.syncSource == some uid') = true
            · rw [if_pos hcase] at ha
              rw [← ha] at hsrc
              exact absurd (by simpa [mappedGroup] using hsrc) hne
            · rw [if_neg (by simpa using hcase)] at ha
              exact h.1 g (ha ▸ hamem) hsrc
          · rcases h.2 with ⟨g, hg, hsrc⟩
            refine ⟨g, List.mem_map.mpr ⟨g, hg, ?_⟩, hsrc⟩
            rw [if_neg]
            simp [hsrc, hne, Ne.symm hne]
    · rw [if_neg hw]
      exact h

/-- A whole pass over identifiers not containing `uid` preserves the
invariant. -/
theorem syncFold_preserves (cfg : SyncConfig) (dir : Directory)
    (writeOk : String → Bool) (confirm : Bool) (uid : String)
    (dg : DirectoryGroup) :
    ∀ (l : List String) (store : List LocalGroup), uid ∉ l →
      synced cfg uid dg store →
      synced cfg uid dg (syncFold cfg dir writeOk confirm store l).1
  | [], _, _, h => h
  | uid' :: rest, store, hnl, h => by
    simp only [syncFold]
    have hne : uid' ≠ uid := fun he => hnl (by simp [he])
    exact syncFold_preserves cfg dir writeOk confirm uid dg rest _
      (fun hm => hnl (List.mem_cons_of_mem _ hm))
      (processUid_preserves cfg dir writeOk confirm store uid' uid dg hne h)

/-- After a confirmed pass over distinct identifiers containing `uid` (with
all writes succeeding), the final store satisfies the upsert invariant for
`uid`. -/
theorem syncFold_establishes (cfg : SyncConfig) (dir : Directory)
    (writeOk : String → Bool) (hW : ∀ n, writeOk n = true) (uid : String)
    (dg : DirectoryGroup) (hlk : Directory.lookup dir uid = some dg) :
    ∀ (l : List String) (store : List LocalGroup), l.Nodup → uid ∈ l →
      synced cfg uid dg (syncFold cfg dir writeOk true store l).1
  | [], _, _, hmem => absurd hmem (by simp)
  | uid' :: rest, store, hnd, hmem => by
    have hnd' := List.nodup_cons.mp hnd
    simp only [syncFold]
    by_cases he : uid' = uid
    · subst he
      exact syncFold_preserves cfg dir writeOk true uid' dg rest _ hnd'.1
        (processUid_establishes cfg dir writeOk store uid' dg hW hlk)
    · have hmem' : uid ∈ rest := by
        rcases List.mem_cons.mp hmem with h | h
        · exact absurd h.symm he
        · exact h
      exact syncFold_establishes cfg dir writeOk hW uid dg hlk rest _ hnd'.2 hmem'

end GroupSync

namespace GroupSync

/-- On a store already satisfying the invariant for `uid`, the confirmed
step for `uid` is a no-op on the store and reports an update. -/
theorem processUid_stable (cfg : SyncConfig) (dir : Directory)
    (writeOk : String → Bool) (store : List LocalGroup) (uid : String)
    (dg : DirectoryGroup) (hW : ∀ n, writeOk n = true)
    (hlk : Directory.lookup dir uid = some dg)
    (h : synced cfg uid dg store) :
    processUid cfg dir writeOk true store uid = (store, .updated) := by
  unfold processUid
  rw [hlk]
  simp only [hW, Bool.true_or, if_true]
  cases hf : findBySyncSource store uid with
  | none =>
    rcases h.2 with ⟨g, hg, hsrc⟩
    have := List.find?_eq_none.mp hf g hg
    exact absurd (by simp [hsrc]) this
  | some g₀ =>
    simp only [if_true]
    refine congrArg₂ _ ?_ rfl
    have : ∀ g ∈ store,
        (if g.syncSource == some uid then mappedGroup cfg uid dg else g) = g := by
      intro g hg
      by_cases hcase : (g.syncSource == some uid) = true
      · rw [if_pos hcase, h.1 g hg (by simpa using hcase)]
      · rw [if_neg (by simpa using hcase)]
    rw [List.map_congr_left this]
    simp

/-- A confirmed pass over a store satisfying the invariant for every
resolvable identifier of the list is a no-op on the store; each identifier
reports an update or, when its record is missing, a GroupNotFound error. -/
theorem syncFold_stable (cfg : SyncConfig) (dir : Directory)
    (writeOk : String → Bool) (hW : ∀ n, writeOk n = true) :
    ∀ (l : List String) (store : List LocalGroup),
      (∀ uid ∈ l, ∀ dg, Directory.lookup dir uid = some dg →
        synced cfg uid dg store) →
      syncFold cfg dir writeOk true store l =
        (store, l.map (fun uid => (uid,
          match Directory.lookup dir uid with
          | none => Outcome.failed .GroupNotFound
          | some _ => Outcome.updated)))
  | [], _, _ => rfl
  | uid :: rest, store, hinv => by
    have hstep : processUid cfg dir writeOk true store uid =
        (store, match Directory.lookup dir uid with
          | none => Outcome.failed .GroupNotFound
          | some _ => Outcome.updated) := by
      cases hlk : Directory.lookup dir uid with
      | none => unfold processUid; rw [hlk]
      | some dg =>
        rw [processUid_stable cfg dir writeOk store uid dg hW hlk
          (hinv uid (by simp) dg hlk)]
    simp only [syncFold, hstep, List.map_cons]
    rw [syncFold_stable cfg dir writeOk hW rest store
      (fun u hu dg hdg => hinv u (List.mem_cons_of_mem _ hu) dg hdg)]

/-- C3: for an admitted directory group, a confirmed sync (with writes
succeeding) upserts by full replacement: afterwards exactly the mapped
group sits under the sync-source marker — its member set is precisely the
resolvable mapped directory membership, with nothing merged in — and the
identifier is reported created when no LocalGroup carried the marker
before, updated otherwise. -/
theorem sync_upsert_full_replace (cfg : SyncConfig) (dir : Directory)
    (writeOk : String → Bool) (cands : List String) (store : List LocalGroup)
    (uid : String) (dg : DirectoryGroup) (hW : ∀ n, writeOk n = true)
    (hAdm : uid ∈ admittedIds cfg.filter cands)
    (hLk : Directory.lookup dir uid = some dg) :
    (∃ g ∈ (syncRun cfg true dir writeOk true cands store).store,
        g.syncSource = some uid) ∧
    (∀ g ∈ (syncRun cfg true dir writeOk true cands store).store,
        g.syncSource = some uid →
          g = mappedGroup cfg uid dg ∧
          g.users = dg.members.filterMap cfg.resolveMember) ∧
    (findBySyncSource store uid = none →
      uid ∈ (syncRun cfg true dir writeOk true cands store).result.created) ∧
    (findBySyncSource store uid ≠ none →
      uid ∈ (syncRun cfg true dir writeOk true cands store).result.updated) := by
  have hrw : syncRun cfg true dir writeOk true cands store =
      { store := (syncFold cfg dir writeOk true store (admittedIds cfg.filter cands)).1
        result := resultOfOutcomes
          (syncFold cfg dir writeOk true store (admittedIds cfg.filter cands)).2
        exitOk := (admittedIds cfg.filter cands).isEmpty ||
          decide ((resultOfOutcomes
            (syncFold cfg dir writeOk true store (admittedIds cfg.filter cands)).2).errors.length <
              (admittedIds cfg.filter cands).length) } := rfl
  have hnd : (admittedIds cfg.filter cands).Nodup := List.nodup_dedup _
  have hsy := syncFold_establishes cfg dir writeOk hW uid dg hLk
    (admittedIds cfg.filter cands) store hnd hAdm
  have houts := syncFold_outcomes cfg dir writeOk true hW
    (admittedIds cfg.filter cands) store hnd
  refine ⟨?_, ?_, ?_, ?_⟩
  · rw [hrw]
    exact hsy.2
  · rw [hrw]
    intro g hg hsrc
    refine ⟨hsy.1 g hg hsrc, ?_⟩
    rw [hsy.1 g hg hsrc]
    simp [mappedGroup, mapMembers, mapMembersList_fst]
  · intro hnone
    rw [hrw]
    show uid ∈ (resultOfOutcomes _).created
    rw [resultOfOutcomes, houts]
    have hcl : classify dir store uid = .created := by
      unfold classify
      rw [hLk, hnone]
    refine List.mem_map.mpr ⟨(uid, Outcome.created), ?_, rfl⟩
    refine List.mem_filter.mpr ⟨?_, by simp⟩
    exact List.mem_map.mpr ⟨uid, hAdm, by rw [hcl]⟩
  · intro hsome
    rw [hrw]
    show uid ∈ (resultOfOutcomes _).updated
    rw [resultOfOutcomes, houts]
    have hcl : classify dir store uid = .updated := by
      unfold classify
      rw [hLk]
      cases hf : findBySyncSource store uid with
      | none => exact absurd hf hsome
      | some g₀ => rfl
    refine List.mem_map.mpr ⟨(uid, Outcome.updated), ?_, rfl⟩
    refine List.mem_filter.mpr ⟨?_, by simp⟩
    exact List.mem_map.mpr ⟨uid, hAdm, by rw [hcl]⟩

/-- Witness for C3: syncing directory group "g1" into an empty store with a
trivial configuration creates the mapped LocalGroup. -/
theorem sync_upsert_full_replace_witness :
    (∃ g ∈ (syncRun ⟨⟨[], []⟩, (fun dg => dg.displayName), some⟩ true
        [⟨"g1", "G1", ["alice", "bob"]⟩] (fun _ => true) true ["g1"] []).store,
      g.syncSource = some "g1") ∧
    (∀ g ∈ (syncRun ⟨⟨[], []⟩, (fun dg => dg.displayName), some⟩ true
        [⟨"g1", "G1", ["alice", "bob"]⟩] (fun _ => true) true ["g1"] []).store,
      g.syncSource = some "g1" →
        g = mappedGroup ⟨⟨[], []⟩, (fun dg => dg.displayName), some⟩ "g1"
              ⟨"g1", "G1", ["alice", "bob"]⟩ ∧
        g.users = ["alice", "bob"].filterMap some) ∧
    (findBySyncSource [] "g1" = none →
      "g1" ∈ (syncRun ⟨⟨[], []⟩, (fun dg => dg.displayName), some⟩ true
        [⟨"g1", "G1", ["alice", "bob"]⟩] (fun _ => true) true ["g1"] []).result.created) ∧
    (findBySyncSource [] "g1" ≠ none →
      "g1" ∈ (syncRun ⟨⟨[], []⟩, (fun dg => dg.displayName), some⟩ true
        [⟨"g1", "G1", ["alice", "bob"]⟩] (fun _ => true) true ["g1"] []).result.updated) :=
  sync_upsert_full_replace ⟨⟨[], []⟩, (fun dg => dg.displayName), some⟩
    [⟨"g1", "G1", ["alice", "bob"]⟩] (fun _ => true) ["g1"] [] "g1"
    ⟨"g1", "G1", ["alice", "bob"]⟩ (fun _ => rfl) (by decide) rfl

end GroupSync

namespace GroupSync

/-- Reading a SyncResult off a pointwise outcome list. -/
theorem resultOfOutcomes_map (F : String → Outcome) (A : List String) :
    (resultOfOutcomes (A.map (fun uid => (uid, F uid)))).created =
      A.filter (fun uid => F uid == Outcome.created) ∧
    (resultOfOutcomes (A.map (fun uid => (uid, F uid)))).updated =
      A.filter (fun uid => F uid == Outcome.updated) ∧
    (resultOfOutcomes (A.map (fun uid => (uid, F uid)))).errors =
      A.filterMap (fun uid =>
        match F uid with
        | .failed k => some (uid, k)
        | _ => none) := by
  refine ⟨?_, ?_, ?_⟩
  · simp [resultOfOutcomes, List.filter_map, Function.comp_def, List.map_map]
  · simp [resultOfOutcomes, List.filter_map, Function.comp_def, List.map_map]
  · simp [resultOfOutcomes, List.filterMap_map, Function.comp_def]

/-- Concatenating the sublists of two disjoint filters is a permutation of
filtering by their disjunction. -/
theorem filter_disjoint_perm {α : Type} (p q : α → Bool)
    (h : ∀ a, p a = true → q a = false) :
    ∀ l : List α,
      (l.filter p ++ l.filter q).Perm (l.filter (fun a => p a || q a))
  | [] => List.Perm.refl []
  | a :: l => by
    cases hp : p a with
    | true =>
      rw [List.filter_cons_of_pos hp, List.filter_cons_of_neg (by simp [h a hp]),
        List.filter_cons_of_pos (by simp [hp]), List.cons_append]
      exact (filter_disjoint_perm p q h l).cons a
    | false =>
      cases hq : q a with
      | true =>
        rw [List.filter_cons_of_neg (by simp [hp]), List.filter_cons_of_pos hq,
          List.filter_cons_of_pos (by simp [hq])]
        exact List.perm_middle.trans ((filter_disjoint_perm p q h l).cons a)
      | false =>
        rw [List.filter_cons_of_neg (by simp [hp]),
          List.filter_cons_of_neg (by simp [hq]),
          List.filter_cons_of_neg (by simp [hp, hq])]
        exact filter_disjoint_perm p q h l

/-- C4: on an unchanged directory with all writes succeeding, a second
confirmed Sync with identical inputs is idempotent — it leaves the store
exactly where the first run left it, reports the same per-group errors, and
its created/updated entries cover exactly the identifiers the first run
created or updated (nothing new is created on the second run). -/
theorem sync_idempotent (cfg : SyncConfig) (dir : Directory)
    (writeOk : String → Bool) (cands : List String) (store : List LocalGroup)
    (hW : ∀ n, writeOk n = true) :
    (syncRun cfg true dir writeOk true cands
        (syncRun cfg true dir writeOk true cands store).store).store =
      (syncRun cfg true dir writeOk true cands store).store ∧
    (syncRun cfg true dir writeOk true cands
        (syncRun cfg true dir writeOk true cands store).store).result.errors =
      (syncRun cfg true dir writeOk true cands store).result.errors ∧
    ((syncRun cfg true dir writeOk true cands
        (syncRun cfg true dir writeOk true cands store).store).result.created ++
      (syncRun cfg true dir writeOk true cands
        (syncRun cfg true dir writeOk true cands store).store).result.updated).Perm
      ((syncRun cfg true dir writeOk true cands store).result.created ++
        (syncRun cfg true dir writeOk true cands store).result.updated) ∧
    (syncRun cfg true dir writeOk true cands
        (syncRun cfg true dir writeOk true cands store).store).result.created = [] := by
  have hnd : (admittedIds cfg.filter cands).Nodup := List.nodup_dedup _
  set A := admittedIds cfg.filter cands with hA
  set store1 := (syncFold cfg dir writeOk true store A).1 with hstore1
  have hinv : ∀ uid ∈ A, ∀ dg, Directory.lookup dir uid = some dg →
      synced cfg uid dg store1 := by
    intro uid hu dg hdg
    exact syncFold_establishes cfg dir writeOk hW uid dg hdg A store hnd hu
  have hstable := syncFold_stable cfg dir writeOk hW A store1 hinv
  have houts1 := syncFold_outcomes cfg dir writeOk true hW A store hnd
  have hrw1 : (syncRun cfg true dir writeOk true cands store).store = store1 := rfl
  have hrw1r : (syncRun cfg true dir writeOk true cands store).result =
      resultOfOutcomes (syncFold cfg dir writeOk true store A).2 := rfl
  have hrw2r : (syncRun cfg true dir writeOk true cands store1).result =
      resultOfOutcomes (syncFold cfg dir writeOk true store1 A).2 := rfl
  have hrw2s : (syncRun cfg true dir writeOk true cands store1).store =
      (syncFold cfg dir writeOk true store1 A).1 := rfl
  have F2def : (syncFold cfg dir writeOk true store1 A).2 =
      A.map (fun uid => (uid,
        match Directory.lookup dir uid with
        | none => Outcome.failed .GroupNotFound
        | some _ => Outcome.updated)) := by
    rw [hstable]
  have r1 := resultOfOutcomes_map (fun uid => classify dir store uid) A
  have r2 := resultOfOutcomes_map (fun uid =>
      match Directory.lookup dir uid with
      | none => Outcome.failed .GroupNotFound
      | some _ => Outcome.updated) A
  refine ⟨?_, ?_, ?_, ?_⟩
  · rw [hrw1, hrw2s, hstable]
  · rw [hrw1, hrw2r, hrw1r, F2def, houts1, r2.2.2, r1.2.2]
    refine List.filterMap_congr ?_
    intro uid _
    unfold classify
    cases Directory.lookup dir uid with
    | none => rfl
    | some dg => cases findBySyncSource store uid <;> rfl
  · rw [hrw1, hrw2r, hrw1r, F2def, houts1, r2.1, r2.2.1, r1.1, r1.2.1]
    have hc2 : A.filter (fun uid =>
        (match Directory.lookup dir uid with
          | none => Outcome.failed ErrKind.GroupNotFound
          | some _ => Outcome.updated) == Outcome.created) = [] := by
      rw [List.filter_congr (q := fun _ => false) ?_, List.filter_false]
      intro uid _
      cases Directory.lookup dir uid <;> rfl
    rw [hc2, List.nil_append]
    have hperm := filter_disjoint_perm
      (fun uid => classify dir store uid == Outcome.created)
      (fun uid => classify dir store uid == Outcome.updated)
      (by
        intro uid h
        have : classify dir store uid = Outcome.created := by simpa using h
        simp [this]) A
    refine (List.Perm.symm ?_).trans (List.Perm.symm hperm)
    refine (List.filter_congr ?_).symm ▸ List.Perm.refl _
    intro uid _
    unfold classify
    cases Directory.lookup dir uid with
    | none => rfl
    | some dg => cases findBySyncSource store uid <;> rfl
  · rw [hrw1, hrw2r, F2def, r2.1]
    rw [List.filter_congr (q := fun _ => false) ?_, List.filter_false]
    intro uid _
    cases Directory.lookup dir uid <;> rfl

end GroupSync

namespace GroupSync

/-- A tiny concrete configuration for witnesses: no filtering, the directory
name used verbatim, every member resolving to itself. -/
def demoCfg : SyncConfig := ⟨⟨[], []⟩, (fun dg => dg.displayName), some⟩

/-- A tiny concrete directory for witnesses. -/
def demoDir : Directory := [⟨"g1", "G1", ["alice", "bob"]⟩]

/-- Witness for C4: syncing "g1" into an empty store and then syncing again
leaves the store fixed, reports the same errors, and touches the same
identifiers with nothing newly created. -/
theorem sync_idempotent_witness :
    (syncRun demoCfg true demoDir (fun _ => true) true ["g1"]
        (syncRun demoCfg true demoDir (fun _ => true) true ["g1"] []).store).store =
      (syncRun demoCfg true demoDir (fun _ => true) true ["g1"] []).store ∧
    (syncRun demoCfg true demoDir (fun _ => true) true ["g1"]
        (syncRun demoCfg true demoDir (fun _ => true) true ["g1"] []).store).result.errors =
      (syncRun demoCfg true demoDir (fun _ => true) true ["g1"] []).result.errors ∧
    ((syncRun demoCfg true demoDir (fun _ => true) true ["g1"]
        (syncRun demoCfg true demoDir (fun _ => true) true ["g1"] []).store).result.created ++
      (syncRun demoCfg true demoDir (fun _ => true) true ["g1"]
        (syncRun demoCfg true demoDir (fun _ => true) true ["g1"] []).store).result.updated).Perm
      ((syncRun demoCfg true demoDir (fun _ => true) true ["g1"] []).result.created ++
        (syncRun demoCfg true demoDir (fun _ => true) true ["g1"] []).result.updated) ∧
    (syncRun demoCfg true demoDir (fun _ => true) true ["g1"]
        (syncRun demoCfg true demoDir (fun _ => true) true ["g1"] []).store).result.created = [] :=
  sync_idempotent demoCfg demoDir (fun _ => true) ["g1"] [] (fun _ => rfl)

/-- C5: without confirmation, Sync leaves the store entirely unchanged and
never reports a failed store write; when store writes would succeed it
reports exactly the result the confirmed run produces.  Prune likewise
leaves the store unchanged on a dry run while reporting exactly the
deletions the confirmed run performs. -/
theorem sync_prune_dry_run (cfg : SyncConfig) (dir : Directory)
    (writeOk : String → Bool) (cands : List String) (store : List LocalGroup) :
    (syncRun cfg true dir writeOk false cands store).store = store ∧
    (∀ e ∈ (syncRun cfg true dir writeOk false cands store).result.errors,
      e.2 ≠ ErrKind.StoreWriteFailed) ∧
    ((∀ n, writeOk n = true) →
      (syncRun cfg true dir writeOk false cands store).result =
        (syncRun cfg true dir writeOk true cands store).result) ∧
    (pruneRun dir cfg.filter false store).1 = store ∧
    (pruneRun dir cfg.filter false store).2 = (pruneRun dir cfg.filter true store).2 := by
  have hnd : (admittedIds cfg.filter cands).Nodup := List.nodup_dedup _
  refine ⟨?_, ?_, ?_, rfl, rfl⟩
  · exact syncFold_store_dry cfg dir writeOk (admittedIds cfg.filter cands) store
  · intro e he
    have herr : (syncRun cfg true dir writeOk false cands store).result.errors =
        (syncFold cfg dir writeOk false store (admittedIds cfg.filter cands)).2.filterMap
          (fun p => match p.2 with
            | .failed k => some (p.1, k)
            | _ => none) := rfl
    rw [herr] at he
    rcases List.mem_filterMap.mp he with ⟨p, hp, hfp⟩
    have hno := syncFold_dry_no_write_error cfg dir writeOk
      (admittedIds cfg.filter cands) store p hp
    intro hk
    cases ho : p.2 with
    | created => rw [ho] at hfp; cases hfp
    | updated => rw [ho] at hfp; cases hfp
    | failed k =>
      rw [ho] at hfp
      have hek : (p.1, k) = e := by simpa using hfp
      have hk2 : k = ErrKind.StoreWriteFailed :=
        (congrArg Prod.snd hek).trans hk
      apply hno
      rw [ho, hk2]
  · intro hW
    have h1 := syncFold_outcomes cfg dir writeOk false hW
      (admittedIds cfg.filter cands) store hnd
    have h2 := syncFold_outcomes cfg dir writeOk true hW
      (admittedIds cfg.filter cands) store hnd
    have hr1 : (syncRun cfg true dir writeOk false cands store).result =
        resultOfOutcomes
          (syncFold cfg dir writeOk false store (admittedIds cfg.filter cands)).2 := rfl
    have hr2 : (syncRun cfg true dir writeOk true cands store).result =
        resultOfOutcomes
          (syncFold cfg dir writeOk true store (admittedIds cfg.filter cands)).2 := rfl
    rw [hr1, hr2, h1, h2]

/-- Witness for C5 at the demo configuration: the dry run of a creating sync
keeps the store empty and reports exactly what the confirmed run reports. -/
theorem sync_prune_dry_run_witness :
    (syncRun demoCfg true demoDir (fun _ => true) false ["g1"] []).store = [] ∧
    (∀ e ∈ (syncRun demoCfg true demoDir (fun _ => true) false ["g1"] []).result.errors,
      e.2 ≠ ErrKind.StoreWriteFailed) ∧
    ((∀ n, (fun _ : String => true) n = true) →
      (syncRun demoCfg true demoDir (fun _ => true) false ["g1"] []).result =
        (syncRun demoCfg true demoDir (fun _ => true) true ["g1"] []).result) ∧
    (pruneRun demoDir demoCfg.filter false []).1 = [] ∧
    (pruneRun demoDir demoCfg.filter false []).2 =
      (pruneRun demoDir demoCfg.filter true []).2 :=
  sync_prune_dry_run demoCfg demoDir (fun _ => true) ["g1"] []

end GroupSync

namespace GroupSync

/-- Every processed identifier lands in exactly one bucket of the result. -/
theorem resultOfOutcomes_counts :
    ∀ os : List (String × Outcome),
      (resultOfOutcomes os).created.length + (resultOfOutcomes os).updated.length +
        (resultOfOutcomes os).errors.length = os.length
  | [] => rfl
  | (uid, o) :: os => by
    have ih := resultOfOutcomes_counts os
    simp only [resultOfOutcomes, List.length_map] at ih ⊢
    cases o <;>
      simp only [List.filter_cons, List.filterMap_cons] <;>
      simp <;> omega

/-- A pass records one outcome per identifier — no per-group failure aborts
the processing of the remaining groups. -/
theorem syncFold_length (cfg : SyncConfig) (dir : Directory)
    (writeOk : String → Bool) (confirm : Bool) :
    ∀ (l : List String) (store : List LocalGroup),
      (syncFold cfg dir writeOk confirm store l).2.length = l.length
  | [], _ => rfl
  | _ :: rest, store => by
    simp only [syncFold, List.length_cons]
    rw [syncFold_length cfg dir writeOk confirm rest _]

/-- C6: every admitted identifier is processed and lands in exactly one
bucket (created, updated, or a recorded per-group error), and the run exits
successfully iff the admitted set was empty or at least one group was
created or updated — per-group errors alone never flip a successful exit;
an unreachable directory fails the run up front. -/
theorem sync_failure_isolation (cfg : SyncConfig) (dir : Directory)
    (writeOk : String → Bool) (confirm : Bool) (cands : List String)
    (store : List LocalGroup) :
    ((syncRun cfg true dir writeOk confirm cands store).result.created.length +
      (syncRun cfg true dir writeOk confirm cands store).result.updated.length +
      (syncRun cfg true dir writeOk confirm cands store).result.errors.length =
        (admittedIds cfg.filter cands).length) ∧
    ((syncRun cfg true dir writeOk confirm cands store).exitOk = true ↔
      (admittedIds cfg.filter cands = [] ∨
        (syncRun cfg true dir writeOk confirm cands store).result.created ++
          (syncRun cfg true dir writeOk confirm cands store).result.updated ≠ [])) ∧
    (syncRun cfg false dir writeOk confirm cands store).exitOk = false := by
  have hrwr : (syncRun cfg true dir writeOk confirm cands store).result =
      resultOfOutcomes
        (syncFold cfg dir writeOk confirm store (admittedIds cfg.filter cands)).2 := rfl
  have hrwe : (syncRun cfg true dir writeOk confirm cands store).exitOk =
      ((admittedIds cfg.filter cands).isEmpty ||
        decide ((resultOfOutcomes
          (syncFold cfg dir writeOk confirm store (admittedIds cfg.filter cands)).2).errors.length <
            (admittedIds cfg.filter cands).length)) := rfl
  have hcount := resultOfOutcomes_counts
    (syncFold cfg dir writeOk confirm store (admittedIds cfg.filter cands)).2
  have hlen := syncFold_length cfg dir writeOk confirm
    (admittedIds cfg.filter cands) store
  rw [hlen] at hcount
  refine ⟨by rw [hrwr]; exact hcount, ?_, rfl⟩
  rw [hrwr, hrwe]
  simp only [Bool.or_eq_true, decide_eq_true_eq, List.isEmpty_iff]
  constructor
  · rintro (h | h)
    · exact Or.inl h
    · refine Or.inr ?_
      have hpos : 0 < ((resultOfOutcomes
          (syncFold cfg dir writeOk confirm store
            (admittedIds cfg.filter cands)).2).created ++
          (resultOfOutcomes
            (syncFold cfg dir writeOk confirm store
              (admittedIds cfg.filter cands)).2).updated).length := by
        rw [List.length_append]
        omega
      exact List.length_pos.mp hpos
  · rintro (h | h)
    · exact Or.inl h
    · refine Or.inr ?_
      have hpos := List.length_pos.mpr h
      rw [List.length_append] at hpos
      omega

/-- Witness for C6 at the demo configuration with one resolvable and one
missing identifier: both outcomes are recorded and the run still exits
successfully. -/
theorem sync_failure_isolation_witness :
    ((syncRun demoCfg true demoDir (fun _ => true) true ["g1", "gX"] []).result.created.length +
      (syncRun demoCfg true demoDir (fun _ => true) true ["g1", "gX"] []).result.updated.length +
      (syncRun demoCfg true demoDir (fun _ => true) true ["g1", "gX"] []).result.errors.length =
        (admittedIds demoCfg.filter ["g1", "gX"]).length) ∧
    ((syncRun demoCfg true demoDir (fun _ => true) true ["g1", "gX"] []).exitOk = true ↔
      (admittedIds demoCfg.filter ["g1", "gX"] = [] ∨
        (syncRun demoCfg true demoDir (fun _ => true) true ["g1", "gX"] []).result.created ++
          (syncRun demoCfg true demoDir (fun _ => true) true ["g1", "gX"] []).result.updated ≠ [])) ∧
    (syncRun demoCfg false demoDir (fun _ => true) true ["g1", "gX"] []).exitOk = false :=
  sync_failure_isolation demoCfg demoDir (fun _ => true) true ["g1", "gX"] []

end GroupSync
